import Mathlib

/-!
Verification of the sequence-to-price prediction pipeline of the stock-analytics
repository.  The definitions below are a shallow embedding of
`src/models/train_predictor.py` (class `StockPricePredictor`) and of the RSI
computation in `src/data_collection/collect_data.py`
(`StockDataCollector.calculate_technical_indicators`).

Machine floats are modelled by `EF`: either a rational value, `nan`, or a signed
infinity, with IEEE-754 propagation rules for the operations the code performs.
Torch internals (minibatch gradient updates and validation-loss evaluation) are
external library calls; the training loop is embedded with those two calls
abstracted as functions over an opaque weight/optimizer state, while the loop's
own control flow (epoch iteration, best-checkpoint bookkeeping, error points)
is translated from the source.  The square root used by `pandas.Series.std` is
likewise passed in as a function argument.
-/

namespace StockPred

/-- An IEEE-754-style scalar: a rational value, not-a-number, or a signed
infinity.  Used where the Python code can produce `nan`/`inf` (the RSI
division and the confidence-interval arithmetic). -/
inductive EF where
  | nan : EF
  | pinf : EF
  | ninf : EF
  | val : ℚ → EF
deriving DecidableEq, Repr

namespace EF

/-- IEEE addition on `EF` (no rounding: values are exact rationals). -/
def add : EF → EF → EF
  | nan, _ => nan
  | _, nan => nan
  | pinf, ninf => nan
  | ninf, pinf => nan
  | pinf, _ => pinf
  | _, pinf => pinf
  | ninf, _ => ninf
  | _, ninf => ninf
  | val a, val b => val (a + b)

/-- IEEE subtraction on `EF`. -/
def sub : EF → EF → EF
  | nan, _ => nan
  | _, nan => nan
  | pinf, pinf => nan
  | ninf, ninf => nan
  | pinf, _ => pinf
  | _, pinf => ninf
  | ninf, _ => ninf
  | _, ninf => pinf
  | val a, val b => val (a - b)

/-- IEEE multiplication on `EF`. -/
def mul : EF → EF → EF
  | nan, _ => nan
  | _, nan => nan
  | pinf, pinf => pinf
  | pinf, ninf => ninf
  | ninf, pinf => ninf
  | ninf, ninf => pinf
  | pinf, val b => if b = 0 then nan else if 0 < b then pinf else ninf
  | val a, pinf => if a = 0 then nan else if 0 < a then pinf else ninf
  | ninf, val b => if b = 0 then nan else if 0 < b then ninf else pinf
  | val a, ninf => if a = 0 then nan else if 0 < a then ninf else pinf
  | val a, val b => val (a * b)

/-- IEEE division on `EF`; division of a nonzero value by (positive) zero
produces a signed infinity and `0/0` produces `nan`, exactly as
`numpy`/`pandas` behave in `rs = gain / loss`. -/
def div : EF → EF → EF
  | nan, _ => nan
  | _, nan => nan
  | pinf, pinf => nan
  | pinf, ninf => nan
  | ninf, pinf => nan
  | ninf, ninf => nan
  | pinf, val b => if 0 ≤ b then pinf else ninf
  | ninf, val b => if 0 ≤ b then ninf else pinf
  | val _, pinf => val 0
  | val _, ninf => val 0
  | val a, val b =>
      if b = 0 then (if a = 0 then nan else if 0 < a then pinf else ninf)
      else val (a / b)

/-- IEEE `≤` as a boolean: any comparison involving `nan` is false. -/
def leB : EF → EF → Bool
  | nan, _ => false
  | _, nan => false
  | ninf, _ => true
  | _, pinf => true
  | pinf, _ => false
  | val _, ninf => false
  | val a, val b => decide (a ≤ b)

/-- Boolean test `0 < x` with IEEE semantics (`nan > 0` is false),
as used by `delta.where(delta > 0, 0)`. -/
def gtZeroB : EF → Bool
  | pinf => true
  | val a => decide (0 < a)
  | _ => false

/-- Boolean test `x < 0` with IEEE semantics, as used by
`delta.where(delta < 0, 0)`. -/
def ltZeroB : EF → Bool
  | ninf => true
  | val a => decide (a < 0)
  | _ => false

/-- IEEE negation. -/
def neg : EF → EF
  | nan => nan
  | pinf => ninf
  | ninf => pinf
  | val a => val (-a)

/-- `x` is a finite value that is nonnegative. -/
def IsNonnegVal (x : EF) : Prop := ∃ q : ℚ, x = val q ∧ 0 ≤ q

end EF

/-! ## RSI pipeline (`StockDataCollector.calculate_technical_indicators`)

The close-price series is a `List ℚ`; positions are accessed with default `0`
(all claims quantify only over in-range behaviour). -/

/-- Element `i` of the close-price series. -/
def closeAt (closes : List ℚ) (i : ℕ) : ℚ := closes.getD i 0

/-- `delta = df['close_price'].diff()`: `nan` at position 0, the day-over-day
difference afterwards. -/
def delta (closes : List ℚ) (i : ℕ) : EF :=
  if i = 0 then .nan else .val (closeAt closes i - closeAt closes (i - 1))

/-- `delta.where(delta > 0, 0)`: the positive part of the delta (the `nan` at
position 0 fails the comparison and becomes 0). -/
def gain (closes : List ℚ) (i : ℕ) : EF :=
  if (delta closes i).gtZeroB then delta closes i else .val 0

/-- `-delta.where(delta < 0, 0)`: the magnitude of the negative part of the
delta. -/
def loss (closes : List ℚ) (i : ℕ) : EF :=
  (if (delta closes i).ltZeroB then delta closes i else .val 0).neg

/-- Sum of the trailing window `[i - w + 1, i]` of an `EF`-valued series. -/
def rollSum (f : ℕ → EF) : ℕ → ℕ → EF
  | 0, _ => .val 0
  | w + 1, i => (rollSum f w (i - 1)).add (f i)

/-- `Series.rolling(window=w).mean()`: `nan` until `w` observations exist
(`min_periods` defaults to the window size), then the trailing mean. -/
def rollMean (f : ℕ → EF) (w i : ℕ) : EF :=
  if i + 1 < w then .nan else (rollSum f w i).div (.val w)

/-- `gain.rolling(window=14).mean()`. -/
def avgGain (closes : List ℚ) (i : ℕ) : EF := rollMean (gain closes) 14 i

/-- `loss.rolling(window=14).mean()`. -/
def avgLoss (closes : List ℚ) (i : ℕ) : EF := rollMean (loss closes) 14 i

/-- `rs = gain / loss` (the rolling means). -/
def rs (closes : List ℚ) (i : ℕ) : EF :=
  (avgGain closes i).div (avgLoss closes i)

/-- `df['rsi'] = 100 - (100 / (1 + rs))`. -/
def rsi (closes : List ℚ) (i : ℕ) : EF :=
  (EF.val 100).sub ((EF.val 100).div ((EF.val 1).add (rs closes i)))

/-! ## Missing-value policy (`df = df.ffill().fillna(0)` in
`StockPricePredictor.fetch_training_data`)

One column of the dataframe is a `List (Option ℚ)`; `none` is a missing value
(`NaN`/SQL `NULL`). -/

/-- Forward fill with the carried last valid observation. -/
def ffillAux : Option ℚ → List (Option ℚ) → List (Option ℚ)
  | _, [] => []
  | last, x :: xs =>
    match x with
    | some v => some v :: ffillAux (some v) xs
    | none => last :: ffillAux last xs

/-- `Series.ffill()`: each missing value inherits the most recent prior valid
value; leading missing values stay missing. -/
def ffill (xs : List (Option ℚ)) : List (Option ℚ) := ffillAux none xs

/-- `Series.ffill().fillna(0)`: forward fill, then replace the remaining
(leading-gap) missing values with 0. -/
def fillMissing (xs : List (Option ℚ)) : List ℚ :=
  (ffill xs).map (fun o => o.getD 0)

/-! ## MinMax scaling (`sklearn.preprocessing.MinMaxScaler`, default
`feature_range=(0, 1)`) -/

/-- Minimum of a column (sklearn `data_min_`). -/
def listMin (xs : List ℚ) : ℚ := xs.foldl min (xs.headD 0)

/-- Maximum of a column (sklearn `data_max_`). -/
def listMax (xs : List ℚ) : ℚ := xs.foldl max (xs.headD 0)

/-- sklearn `_handle_zeros_in_scale`: a zero data range is replaced by 1 so a
constant column scales to 0 instead of dividing by zero. -/
def mmRange (mn mx : ℚ) : ℚ := if mx - mn = 0 then 1 else mx - mn

/-- `MinMaxScaler.transform` of one value under fitted `(data_min_, data_max_)`. -/
def mmScale (b : ℚ × ℚ) (v : ℚ) : ℚ := (v - b.1) / mmRange b.1 b.2

/-- `MinMaxScaler.inverse_transform` of one value. -/
def mmUnscale (b : ℚ × ℚ) (v : ℚ) : ℚ := v * mmRange b.1 b.2 + b.1

/-- Column `j` of a row-major table. -/
def column (rows : List (List ℚ)) (j : ℕ) : List ℚ :=
  rows.map (fun r => r.getD j 0)

/-- `MinMaxScaler.fit` on a table with `F` columns: per-column
`(data_min_, data_max_)`. -/
def mmFit (F : ℕ) (rows : List (List ℚ)) : List (ℚ × ℚ) :=
  (List.range F).map (fun j => (listMin (column rows j), listMax (column rows j)))

/-- Fit with the number of columns read off the table itself
(`X.shape[1]`). -/
def mmFitT (rows : List (List ℚ)) : List (ℚ × ℚ) := mmFit (rows.headD []).length rows

/-- Transform one row under per-column fitted bounds. -/
def mmTransformRow (bs : List (ℚ × ℚ)) (r : List ℚ) : List ℚ :=
  List.zipWith mmScale bs r

/-- `MinMaxScaler.transform` of a whole table. -/
def mmTransform (bs : List (ℚ × ℚ)) (rows : List (List ℚ)) : List (List ℚ) :=
  rows.map (mmTransformRow bs)

/-- `MinMaxScaler.inverse_transform` of a whole table. -/
def mmInverse (bs : List (ℚ × ℚ)) (rows : List (List ℚ)) : List (List ℚ) :=
  rows.map (fun r => List.zipWith mmUnscale bs r)

/-- Single-column fit, used for the target scaler
(`target = df['close_price'].values.reshape(-1, 1)`). -/
def mmFit1 (xs : List ℚ) : ℚ × ℚ := (listMin xs, listMax xs)

/-! ## Sequence windowing (`StockPricePredictor.prepare_sequences`)

A dataframe restricted to `feature_columns` is a row-major `List (List ℚ)`;
`close_price` is column 3 of that selection. -/

/-- Index of `close_price` in `StockPricePredictor.feature_columns`. -/
def closeIdx : ℕ := 3

/-- The two fitted scalers held by a `StockPricePredictor` instance
(`scaler_features`, `scaler_target`). -/
structure Scalers where
  feat : List (ℚ × ℚ)
  targ : ℚ × ℚ
deriving DecidableEq, Repr

/-- `StockPricePredictor.prepare_sequences`: refit both scalers with
`fit_transform` on the whole table, then for `i in range(sequence_length, N)`
emit window `features_scaled[i - L : i]` with label `target_scaled[i]`.
Returns the refitted scalers (the method overwrites the instance's scaler
state) together with `(X, y)`. -/
def prepareSequences (L : ℕ) (df : List (List ℚ)) :
    Scalers × List (List (List ℚ)) × List ℚ :=
  let features := df
  let target := column df closeIdx
  let featB := mmFitT features
  let targB := mmFit1 target
  let featuresScaled := mmTransform featB features
  let targetScaled := target.map (mmScale targB)
  let idxs := List.range' L (featuresScaled.length - L)
  let X := idxs.map (fun i => (featuresScaled.drop (i - L)).take L)
  let y := idxs.map (fun i => targetScaled.getD i 0)
  (⟨featB, targB⟩, X, y)

/-- The only exception `prepare_sequences` can raise: `MinMaxScaler.fit`
rejects an array with zero samples. -/
inductive PrepErr where
  | emptyFit : PrepErr
deriving DecidableEq, Repr

/-- `prepare_sequences` together with its only failure mode: the method body
contains no raise statement, and the sole exception path is the scaler's
fit on an empty table. -/
def prepareSequencesE (L : ℕ) (df : List (List ℚ)) :
    Except PrepErr (Scalers × List (List (List ℚ)) × List ℚ) :=
  if df.isEmpty then .error .emptyFit else .ok (prepareSequences L df)

/-! ## Training loop (`StockPricePredictor.train`)

The torch internals of one epoch — the minibatch gradient updates and the
validation-loss evaluation — are external library calls and are abstracted as
`step : W → W` and `valLoss : W → ℚ` over an opaque state `W` (weights plus
optimizer/scheduler state).  The loop's own control flow is translated from
the source: per epoch run the batches, evaluate the validation loss, and when
it strictly improves on the best seen so far save the current model as the
checkpoint (`self._save_model`).  The checkpoint is written to disk and never
reloaded; `_calculate_metrics` afterwards runs on `self.model`, the in-memory
weights left by the last epoch. -/

/-- Error exits of `StockPricePredictor.train` before and during the loop. -/
inductive TrainErr where
  /-- `ValueError("No data available for {symbol}")` when the fetched
  dataframe is empty. -/
  | noData : TrainErr
  /-- `IndexError` from `X_train.shape[2]`: with zero windows `np.array(X)`
  is one-dimensional, so the feature-dimension read fails. -/
  | shapeIndexError : TrainErr
  /-- `ZeroDivisionError` from `total_loss / num_batches` when
  `num_batches = 0`; raised inside the first epoch, after the (empty) batch
  loop. -/
  | firstEpochDivZero : TrainErr
deriving DecidableEq, Repr

/-- The loop state of `train`: the current in-memory model, `best_val_loss`
(`none` plays `float('inf')`), and the weights last written to the checkpoint
file by `_save_model`. -/
structure LoopState (W : Type) where
  model : W
  bestValLoss : Option ℚ
  savedCheckpoint : Option W
deriving DecidableEq, Repr

/-- `val_loss < best_val_loss`, with `best_val_loss` initially infinite. -/
def improves (v : ℚ) : Option ℚ → Bool
  | none => true
  | some b => decide (v < b)

/-- One epoch of `train`: run the batch updates, evaluate the validation
loss, and on strict improvement record it and save the current model. -/
def runEpoch {W : Type} (step : W → W) (valLoss : W → ℚ) (s : LoopState W) :
    LoopState W :=
  let m := step s.model
  let v := valLoss m
  if improves v s.bestValLoss then ⟨m, some v, some m⟩
  else ⟨m, s.bestValLoss, s.savedCheckpoint⟩

/-- The epoch loop of `train`, iterated for the fixed epoch count. -/
def trainLoop {W : Type} (step : W → W) (valLoss : W → ℚ) (epochs : ℕ)
    (s : LoopState W) : LoopState W :=
  (runEpoch step valLoss)^[epochs] s

/-- The weights `_calculate_metrics` runs on after the loop: `self.model`,
i.e. the model component of the final loop state. -/
def metricsModel {W : Type} (step : W → W) (valLoss : W → ℚ) (epochs : ℕ)
    (init : W) : W :=
  (trainLoop step valLoss epochs ⟨init, none, none⟩).model

/-- Python `int(...)` on the nonnegative float `len(X) * (1 - val_split)`. -/
def ratFloorNat (q : ℚ) : ℕ := (⌊q⌋).toNat

/-- `StockPricePredictor.train` up to and including the epoch loop: the
empty-dataframe check, sequence preparation, the chronological train/val
split `split_idx = int(len(X) * (1 - val_split))`, the two crash points the
split can expose, and the loop itself. -/
def train {W : Type} (step : W → W) (valLoss : W → ℚ) (init : W)
    (L batchSize epochs : ℕ) (valSplit : ℚ) (df : List (List ℚ)) :
    Except TrainErr (LoopState W) :=
  if df.isEmpty then .error .noData
  else
    let X := (prepareSequences L df).2.1
    if X.length = 0 then .error .shapeIndexError
    else
      let splitIdx := ratFloorNat ((X.length : ℚ) * (1 - valSplit))
      let nTrain := min splitIdx X.length
      let numBatches := nTrain / batchSize
      if numBatches = 0 then .error .firstEpochDivZero
      else .ok (trainLoop step valLoss epochs ⟨init, none, none⟩)

/-! ## Inference (`StockPricePredictor.predict`) -/

/-- Error exits of `predict`: `ValueError("Model not trained...")` and
`ValueError("Not enough data for prediction")`. -/
inductive PredictErr where
  | modelNotTrained : PredictErr
  | notEnoughData : PredictErr
deriving DecidableEq, Repr

/-- The dictionary `predict` returns.  The confidence bounds are `EF` because
the standard deviation of a single close price is `NaN`. -/
structure PredictResult where
  predictedPrice : ℚ
  confidenceLower : EF
  confidenceUpper : EF
  currentPrice : ℚ
deriving DecidableEq, Repr

/-- The state of a `StockPricePredictor` instance that `predict` reads: the
configured sequence length, the in-memory scalers, and the trained model
(`none` before any `train`/`_load_model`).  The network forward pass is an
opaque function from the last window to the scaled prediction. -/
structure Predictor where
  sequenceLength : ℕ
  scalers : Scalers
  model : Option (List (List ℚ) → ℚ)

/-- Mean of a column (`Series.mean`). -/
def listMean (xs : List ℚ) : ℚ := xs.sum / xs.length

/-- `Series.var(ddof=1)`: the sample variance. -/
def sampleVar (xs : List ℚ) : ℚ :=
  ((xs.map fun x => (x - listMean xs) ^ 2).sum) / ((xs.length : ℚ) - 1)

/-- `df['close_price'].std()`: sample standard deviation (`ddof=1`), `NaN`
when fewer than two observations exist.  The square root (numpy) is the
supplied `sqrtA`. -/
def closeStd (sqrtA : ℚ → ℚ) (xs : List ℚ) : EF :=
  if xs.length < 2 then .nan else .val (sqrtA (sampleVar xs))

/-- `StockPricePredictor.predict`: check the model, check the history length,
transform (never refit) the features with the stored scaler, run the forward
pass on the last `sequence_length` scaled rows, inverse-transform the scalar,
and attach the `±1.96 × std` band over all fetched close prices.  The second
component of the result is the predictor state after the call: the method
assigns to no instance field, so it is the input state. -/
def predict (sqrtA : ℚ → ℚ) (p : Predictor) (df : List (List ℚ)) :
    Except PredictErr PredictResult × Predictor :=
  match p.model with
  | none => (.error .modelNotTrained, p)
  | some m =>
    if df.length < p.sequenceLength then (.error .notEnoughData, p)
    else
      let features := df
      let featuresScaled := mmTransform p.scalers.feat features
      let lastSequence := featuresScaled.drop (featuresScaled.length - p.sequenceLength)
      let predictionScaled := m lastSequence
      let prediction := mmUnscale p.scalers.targ predictionScaled
      let closes := column df closeIdx
      let std := closeStd sqrtA closes
      let confidenceLower := (EF.val prediction).sub ((EF.val (196/100)).mul std)
      let confidenceUpper := (EF.val prediction).add ((EF.val (196/100)).mul std)
      (.ok ⟨prediction, confidenceLower, confidenceUpper, closes.getLastD 0⟩, p)

/-! ## Concrete inputs used by witnesses and counterexamples -/

/-- A strictly increasing 15-day close series (zero average loss, positive
average gain from row 13 on). -/
def c15 : List ℚ := [1, 2, 3, 4, 5, 6, 7, 8, 9, 10, 11, 12, 13, 14, 15]

/-- A 2-row feature table (close price is column 3). -/
def df2 : List (List ℚ) := [[1, 1, 1, 0], [2, 2, 2, 1]]

/-- A 3-row feature table (close price is column 3). -/
def df3 : List (List ℚ) := [[1, 1, 1, 0], [2, 2, 2, 1], [3, 3, 3, 2]]

/-- A concrete instantiation of the abstract epoch weight update. -/
def stepC : ℕ → ℕ := Nat.succ

/-- A concrete validation-loss curve: best at the first epoch, worse at the
second. -/
def valLossC : ℕ → ℚ := fun m => if m = 1 then 0 else 1

/-- A concrete forward pass returning the scaled prediction 1/2. -/
def mW : List (List ℚ) → ℚ := fun _ => 1/2

/-- A predictor with a loaded model, sequence length 1, and fitted scalers. -/
def pW : Predictor := ⟨1, ⟨[(0, 1)], (0, 1)⟩, some mW⟩

/-- A predictor with no trained or loaded model. -/
def pNone : Predictor := ⟨60, ⟨[(0, 1)], (0, 1)⟩, none⟩

/-- A single-row fetched table: the close-price standard deviation is `NaN`. -/
def dfW : List (List ℚ) := [[0, 0, 0, 3]]

/-- What `predict` returns on `pW` and `dfW`. -/
def rW : PredictResult := ⟨1/2, .nan, .nan, 3⟩

/-- A two-row fetched table with close prices 1 and 3. -/
def df2r : List (List ℚ) := [[0, 0, 0, 1], [0, 0, 0, 3]]

/-- What `predict` returns on `pW` and `df2r` with `sqrtA = id`
(sample variance 2, so the band is `1/2 ∓ 1.96 · 2`). -/
def rW2 : PredictResult := ⟨1/2, .val (-171/50), .val (221/50), 3⟩

/-- A column with a leading gap, two valid values, and interior gaps. -/
def xsW : List (Option ℚ) := [none, some 5, none, none, some 7, none]

/-- A rectangular 2×2 table for the scaling round trip. -/
def m2 : List (List ℚ) := [[1, 3], [2, 5]]

/-! ## Helper lemmas -/

/-- Scaling then unscaling with the same fitted bounds is the identity
(exact over ℚ; the zero-range guard makes the scale factor 1, never 0). -/
lemma mmUnscale_mmScale (b : ℚ × ℚ) (v : ℚ) : mmUnscale b (mmScale b v) = v := by
  unfold mmScale mmUnscale mmRange
  rcases eq_or_ne (b.2 - b.1) 0 with h | h
  · simp [h]
  · rw [if_neg h, div_mul_cancel₀ _ h, sub_add_cancel]

/-- Columnwise inverse-transform of a transform is the identity on rows of
matching width. -/
lemma zipWith_unscale_scale :
    ∀ (bs : List (ℚ × ℚ)) (r : List ℚ), bs.length = r.length →
      List.zipWith mmUnscale bs (List.zipWith mmScale bs r) = r := by
  intro bs
  induction bs with
  | nil =>
    intro r h
    cases r with
    | nil => rfl
    | cons v r => simp at h
  | cons b bs ih =>
    intro r h
    cases r with
    | nil => simp at h
    | cons v r =>
      simp only [List.zipWith_cons_cons, mmUnscale_mmScale, List.cons.injEq]
      exact ⟨trivial, ih r (by simpa using h)⟩

/-- The fitted feature bounds have one entry per column of the table. -/
lemma mmFitT_length (rows : List (List ℚ)) :
    (mmFitT rows).length = (rows.headD []).length := by
  simp [mmFitT, mmFit]

/-- The model component of an epoch is the stepped model, regardless of the
checkpoint bookkeeping. -/
lemma runEpoch_model {W : Type} (step : W → W) (valLoss : W → ℚ)
    (s : LoopState W) : (runEpoch step valLoss s).model = step s.model := by
  simp only [runEpoch]
  split <;> rfl

/-- The in-memory model after the epoch loop is the epoch update iterated,
independent of which epoch had the best validation loss. -/
lemma trainLoop_model {W : Type} (step : W → W) (valLoss : W → ℚ) :
    ∀ (n : ℕ) (s : LoopState W),
      (trainLoop step valLoss n s).model = step^[n] s.model := by
  intro n
  induction n with
  | zero => intro s; rfl
  | succ n ih =>
    intro s
    unfold trainLoop at *
    rw [Function.iterate_succ_apply', Function.iterate_succ_apply',
      runEpoch_model, ih]

/-- Forward fill preserves length. -/
lemma ffillAux_length (last : Option ℚ) (xs : List (Option ℚ)) :
    (ffillAux last xs).length = xs.length := by
  induction xs generalizing last with
  | nil => rfl
  | cons x xs ih => cases x <;> simp [ffillAux, ih]

/-- Through a run of missing values the forward fill emits the carried value. -/
lemma ffillAux_carry (xs : List (Option ℚ)) :
    ∀ (last : Option ℚ) (i : ℕ), i < xs.length →
      (∀ k, k ≤ i → xs.getD k none = none) →
      (ffillAux last xs).getD i none = last := by
  induction xs with
  | nil => intro last i hi _; simp at hi
  | cons x xs ih =>
    intro last i hi h
    have hx : x = none := by simpa using h 0 (Nat.zero_le _)
    subst hx
    cases i with
    | zero => simp [ffillAux]
    | succ i =>
      simp only [ffillAux, List.getD_cons_succ]
      exact ih last i (by simpa using hi)
        (fun k hk => by simpa using h (k + 1) (Nat.succ_le_succ hk))

/-- A missing value whose gap back to the most recent valid value `v` at
position `j` contains only missing values is forward-filled to `v`. -/
lemma ffillAux_fwd :
    ∀ (xs : List (Option ℚ)) (last : Option ℚ) (j v i),
      xs.getD j none = some v → j < i → i < xs.length →
      (∀ k, k < i → j < k → xs.getD k none = none) →
      xs.getD i none = none →
      (ffillAux last xs).getD i none = some v := by
  intro xs
  induction xs with
  | nil => intro last j v i _ _ hi _ _; simp at hi
  | cons x xs ih =>
    intro last j v i hj hji hi hgap hnone
    cases j with
    | zero =>
      have hx : x = some v := by simpa using hj
      subst hx
      obtain ⟨i', rfl⟩ := Nat.exists_eq_add_of_lt hji
      simp only [Nat.zero_add] at *
      simp only [ffillAux, List.getD_cons_succ]
      apply ffillAux_carry
      · simpa using hi
      · intro k hk
        rcases Nat.lt_or_ge k i' with hk' | hk'
        · have := hgap (k + 1) (by omega) (by omega)
          simpa using this
        · have hk'' : k = i' := le_antisymm hk hk'
          subst hk''
          simpa using hnone
    | succ j =>
      obtain ⟨i', rfl⟩ := Nat.exists_eq_add_of_lt hji
      have harm : ∀ (last' : Option ℚ),
          (ffillAux last' xs).getD (j + 1 + i') none = some v := by
        intro last'
        apply ih last' j v (j + 1 + i')
        · simpa using hj
        · omega
        · have h2 := hi
          simp only [List.length_cons] at h2
          omega
        · intro k hk hjk
          have := hgap (k + 1) (by omega) (by omega)
          simpa using this
        · simpa using hnone
      cases x with
      | some w =>
        simp only [ffillAux, List.getD_cons_succ]
        exact harm (some w)
      | none =>
        simp only [ffillAux, List.getD_cons_succ]
        exact harm last

/-- Reading the zero-filled column at an in-range position. -/
lemma map_getD_opt (l : List (Option ℚ)) (i : ℕ) (hi : i < l.length) :
    (l.map (fun o => o.getD 0)).getD i 0 = (l.getD i none).getD 0 := by
  rw [List.getD_eq_getElem?_getD, List.getD_eq_getElem?_getD,
    List.getElem?_map, List.getElem?_eq_getElem hi]
  rfl

/-! ## Claim C3 -/

/-- Claim C3, counterexample.  The claim states that after the fixed epoch
count `train` computes the returned metrics using the best checkpoint's
weights.  In a two-epoch run whose validation loss is best at the first
epoch, the saved checkpoint holds the weights of epoch 1 while
`_calculate_metrics` runs on `self.model`, the weights of epoch 2 — the claim
is false of the code. -/
theorem claim_C3_counterexample :
    (trainLoop stepC valLossC 2 ⟨0, none, none⟩).savedCheckpoint = some 1 ∧
    metricsModel stepC valLossC 2 0 = 2 ∧ (2 : ℕ) ≠ 1 := by
  refine ⟨rfl, rfl, by decide⟩

/-- Claim C3, amended: after the fixed epoch count, `train` computes the
returned metrics on the validation split using the final epoch's in-memory
weights — the result of applying every epoch's update — regardless of which
epoch achieved the best validation loss; the best checkpoint is saved to disk
but never reloaded before metric computation. -/
theorem claim_C3_amended {W : Type} (step : W → W) (valLoss : W → ℚ)
    (epochs : ℕ) (init : W) :
    metricsModel step valLoss epochs init = step^[epochs] init := by
  unfold metricsModel
  rw [trainLoop_model]

/-! ## Claim C4 -/

/-- Claim C4: `predict` on a predictor with no trained or loaded model fails
with the model-not-trained error, and `predict` with fewer than
`sequence_length` rows of history fails with the insufficient-data error; in
both cases no prediction is returned. -/
theorem claim_C4 (sqrtA : ℚ → ℚ) (p : Predictor) (df : List (List ℚ)) :
    (p.model = none → (predict sqrtA p df).1 = .error .modelNotTrained) ∧
    (∀ m, p.model = some m → df.length < p.sequenceLength →
      (predict sqrtA p df).1 = .error .notEnoughData) := by
  constructor
  · intro h
    unfold predict
    rw [h]
  · intro m h hlen
    unfold predict
    rw [h]
    simp [hlen]

/-- A predictor with a loaded model but the default sequence length 60. -/
def pSome : Predictor := ⟨60, ⟨[(0, 1)], (0, 1)⟩, some mW⟩

/-- Claim C4, witness: a concrete untrained predictor, and a concrete trained
predictor given one row of history when 60 are needed. -/
theorem claim_C4_witness :
    (predict (fun q => q) pNone dfW).1 = .error .modelNotTrained ∧
    (predict (fun q => q) pSome dfW).1 = .error .notEnoughData :=
  ⟨(claim_C4 (fun q => q) pNone dfW).1 rfl,
    (claim_C4 (fun q => q) pSome dfW).2 mW rfl (by decide)⟩

/-! ## Claim C6 -/

/-- Claim C6: `predict` never refits the scalers — the fitted scaler
parameters of the predictor state after any call (error or success) are those
of the state before the call. -/
theorem claim_C6 (sqrtA : ℚ → ℚ) (p : Predictor) (df : List (List ℚ)) :
    (predict sqrtA p df).2.scalers = p.scalers := by
  rcases hm : p.model with _ | m
  · simp [predict, hm]
  · by_cases hlen : df.length < p.sequenceLength
    · simp [predict, hm, hlen]
    · simp [predict, hm, hlen]

/-! ## Claim C7 -/

/-- Claim C7: for every rectangular table, `inverse_transform` after
`fit_transform` with the min-max scaler returns the original table (exactly,
in the rational model — every entry lies within the fitted per-column
min/max range by construction). -/
theorem claim_C7 (rows : List (List ℚ))
    (hrect : ∀ r ∈ rows, r.length = (rows.headD []).length) :
    mmInverse (mmFitT rows) (mmTransform (mmFitT rows) rows) = rows := by
  unfold mmInverse mmTransform mmTransformRow
  rw [List.map_map]
  have : ∀ r ∈ rows,
      (List.zipWith mmUnscale (mmFitT rows) ∘ List.zipWith mmScale (mmFitT rows)) r
        = r := by
    intro r hr
    exact zipWith_unscale_scale (mmFitT rows) r
      ((mmFitT_length rows).trans (hrect r hr).symm)
  calc rows.map (List.zipWith mmUnscale (mmFitT rows) ∘ List.zipWith mmScale (mmFitT rows))
      = rows.map id := List.map_congr_left this
    _ = rows := List.map_id rows

/-- Claim C7, witness: the round trip on a concrete 2×2 table. -/
theorem claim_C7_witness :
    mmInverse (mmFitT m2) (mmTransform (mmFitT m2) m2) = m2 :=
  claim_C7 m2 (by decide)

/-! ## Claim C8 -/

/-- Claim C8: missing values are filled forward-fill-first, zero-fill-second:
a missing value with a prior valid value (and only missing values in between)
is filled with that most recent prior valid value, and a missing value in a
leading gap (no prior valid value at all) becomes 0. -/
theorem claim_C8 :
    (∀ (xs : List (Option ℚ)) (i j : ℕ) (v : ℚ),
      j < i → i < xs.length → xs.getD j none = some v →
      (∀ k, k < i → j < k → xs.getD k none = none) →
      xs.getD i none = none →
      (fillMissing xs).getD i 0 = v) ∧
    (∀ (xs : List (Option ℚ)) (i : ℕ), i < xs.length →
      (∀ k, k ≤ i → xs.getD k none = none) →
      (fillMissing xs).getD i 0 = 0) := by
  constructor
  · intro xs i j v hji hi hj hgap hnone
    unfold fillMissing
    rw [map_getD_opt _ _ (by simpa [ffill, ffillAux_length] using hi)]
    rw [show (ffill xs).getD i none = some v from
      ffillAux_fwd xs none j v i hj hji hi hgap hnone]
    rfl
  · intro xs i hi h
    unfold fillMissing
    rw [map_getD_opt _ _ (by simpa [ffill, ffillAux_length] using hi)]
    rw [show (ffill xs).getD i none = none from ffillAux_carry xs none i hi h]
    rfl

/-- Claim C8, witness: in `[none, some 5, none, none, some 7, none]` the
missing value at position 3 is filled with 5 (the most recent prior valid
value, across the interior gap), and the leading missing value at position 0
becomes 0. -/
theorem claim_C8_witness :
    (fillMissing xsW).getD 3 0 = 5 ∧ (fillMissing xsW).getD 0 0 = 0 :=
  ⟨claim_C8.1 xsW 3 1 5 (by decide) (by decide) (by decide) (by decide)
      (by decide),
    claim_C8.2 xsW 0 (by decide) (by decide)⟩

/-! ## EF computation lemmas -/

lemma EF.nan_div (x : EF) : EF.div .nan x = .nan := by cases x <;> rfl

lemma EF.div_nan (x : EF) : EF.div x .nan = .nan := by cases x <;> rfl

lemma EF.add_nan (x : EF) : EF.add x .nan = .nan := by cases x <;> rfl

lemma EF.sub_nan (x : EF) : EF.sub x .nan = .nan := by cases x <;> rfl

lemma EF.val_add_val (a b : ℚ) : (EF.val a).add (.val b) = .val (a + b) := rfl

lemma EF.val_sub_val (a b : ℚ) : (EF.val a).sub (.val b) = .val (a - b) := rfl

lemma EF.val_mul_val (a b : ℚ) : (EF.val a).mul (.val b) = .val (a * b) := rfl

lemma EF.val_add_pinf (a : ℚ) : (EF.val a).add .pinf = .pinf := rfl

lemma EF.val_div_pinf (a : ℚ) : (EF.val a).div .pinf = .val 0 := rfl

lemma EF.val_div_val (a b : ℚ) (hb : b ≠ 0) :
    (EF.val a).div (.val b) = .val (a / b) := by
  show (if b = 0 then (if a = 0 then EF.nan else if 0 < a then EF.pinf else EF.ninf)
      else EF.val (a / b)) = EF.val (a / b)
  rw [if_neg hb]

lemma EF.val_div_zero_pos (a : ℚ) (ha : 0 < a) :
    (EF.val a).div (.val 0) = .pinf := by
  show (if (0 : ℚ) = 0 then (if a = 0 then EF.nan else if 0 < a then EF.pinf else EF.ninf)
      else EF.val (a / 0)) = EF.pinf
  rw [if_pos rfl, if_neg ha.ne', if_pos ha]

lemma EF.mul_nan (x : EF) : EF.mul x .nan = .nan := by cases x <;> rfl

lemma EF.zero_div_zero : (EF.val 0).div (.val 0) = .nan := by
  show (if (0 : ℚ) = 0 then (if (0 : ℚ) = 0 then EF.nan else if 0 < (0 : ℚ) then EF.pinf else EF.ninf)
      else EF.val ((0 : ℚ) / 0)) = EF.nan
  rw [if_pos rfl, if_pos rfl]

/-! ## Nonnegativity of the RSI gains and losses -/

/-- The positive-part series is a nonnegative finite value at every
position (including position 0, where the `nan` delta fails the comparison
and is replaced by 0). -/
lemma gain_nonnegVal (c : List ℚ) (i : ℕ) : EF.IsNonnegVal (gain c i) := by
  unfold gain delta
  by_cases hi : i = 0
  · refine ⟨0, ?_, le_rfl⟩
    simp [hi, EF.gtZeroB]
  · rw [if_neg hi]
    by_cases hd : 0 < closeAt c i - closeAt c (i - 1)
    · rw [if_pos (by simpa [EF.gtZeroB] using hd)]
      exact ⟨_, rfl, le_of_lt hd⟩
    · rw [if_neg (by simpa [EF.gtZeroB] using hd)]
      exact ⟨0, rfl, le_rfl⟩

/-- The negative-part-magnitude series is a nonnegative finite value at
every position. -/
lemma loss_nonnegVal (c : List ℚ) (i : ℕ) : EF.IsNonnegVal (loss c i) := by
  unfold loss delta
  by_cases hi : i = 0
  · refine ⟨0, ?_, le_rfl⟩
    simp [hi, EF.ltZeroB, EF.neg]
  · rw [if_neg hi]
    by_cases hd : closeAt c i - closeAt c (i - 1) < 0
    · rw [if_pos (by simpa [EF.ltZeroB] using hd)]
      exact ⟨-(closeAt c i - closeAt c (i - 1)), rfl, by linarith⟩
    · rw [if_neg (by simpa [EF.ltZeroB] using hd)]
      exact ⟨-0, rfl, by norm_num⟩

/-- A rolling sum of nonnegative finite values is a nonnegative finite
value. -/
lemma rollSum_nonnegVal (f : ℕ → EF) (hf : ∀ j, EF.IsNonnegVal (f j)) :
    ∀ (w i : ℕ), EF.IsNonnegVal (rollSum f w i) := by
  intro w
  induction w with
  | zero => intro i; exact ⟨0, rfl, le_rfl⟩
  | succ w ih =>
    intro i
    obtain ⟨a, ha, ha0⟩ := ih (i - 1)
    obtain ⟨b, hb, hb0⟩ := hf i
    refine ⟨a + b, ?_, by positivity⟩
    show ((rollSum f w (i - 1)).add (f i)) = EF.val (a + b)
    rw [ha, hb, EF.val_add_val]

/-- A 14-day rolling mean of a nonnegative finite series is `nan` (too few
observations) or a nonnegative finite value. -/
lemma rollMean_cases (f : ℕ → EF) (i : ℕ) (hf : ∀ j, EF.IsNonnegVal (f j)) :
    rollMean f 14 i = .nan ∨ EF.IsNonnegVal (rollMean f 14 i) := by
  unfold rollMean
  split
  · exact Or.inl rfl
  · right
    obtain ⟨s, hs1, hs0⟩ := rollSum_nonnegVal f hf 14 i
    rw [hs1]
    refine ⟨s / 14, ?_, div_nonneg hs0 (by norm_num)⟩
    rw [show ((14 : ℕ) : ℚ) = (14 : ℚ) by norm_num,
      EF.val_div_val s 14 (by norm_num)]

/-! ## Claim C9 -/

/-- Claim C9: wherever the RSI is a finite value (not missing), it lies in
the interval `[0, 100]`, for every input close-price series. -/
theorem claim_C9 (closes : List ℚ) (i : ℕ) (q : ℚ)
    (h : rsi closes i = .val q) : 0 ≤ q ∧ q ≤ 100 := by
  unfold rsi rs avgGain avgLoss at h
  rcases rollMean_cases (gain closes) i (gain_nonnegVal closes) with hg | ⟨g, hg, hg0⟩ <;>
    rcases rollMean_cases (loss closes) i (loss_nonnegVal closes) with hl | ⟨l, hl, hl0⟩ <;>
    rw [hg, hl] at h
  · rw [EF.nan_div, EF.add_nan, EF.div_nan, EF.sub_nan] at h
    cases h
  · rw [EF.nan_div, EF.add_nan, EF.div_nan, EF.sub_nan] at h
    cases h
  · rw [EF.div_nan, EF.add_nan, EF.div_nan, EF.sub_nan] at h
    cases h
  · rcases eq_or_lt_of_le hl0 with hl0' | hlpos
    · rcases eq_or_lt_of_le hg0 with hg0' | hgpos
      · rw [← hg0', ← hl0', EF.zero_div_zero, EF.add_nan, EF.div_nan,
          EF.sub_nan] at h
        cases h
      · rw [← hl0', EF.val_div_zero_pos g hgpos, EF.val_add_pinf,
          EF.val_div_pinf, EF.val_sub_val] at h
        have hq : (100 : ℚ) - 0 = q := by injection h
        constructor <;> linarith
    · rw [EF.val_div_val g l hlpos.ne'] at h
      have h1 : (0 : ℚ) ≤ g / l := div_nonneg hg0 (le_of_lt hlpos)
      rw [EF.val_add_val, EF.val_div_val 100 (1 + g / l) (by linarith),
        EF.val_sub_val] at h
      have hq : 100 - 100 / (1 + g / l) = q := by injection h
      have hpos : 0 < 100 / (1 + g / l) := div_pos (by norm_num) (by linarith)
      have hle : 100 / (1 + g / l) ≤ 100 := div_le_self (by norm_num) (by linarith)
      constructor <;> linarith

/-- On the strictly increasing series the 14-day average gain at row 13 is
13/14 (the masked `nan` delta at position 0 contributes 0). -/
lemma avgGain_c15_eval : avgGain c15 13 = .val (13/14) := by
  norm_num [avgGain, rollMean, rollSum, gain, delta, closeAt, c15,
    EF.gtZeroB, EF.val_add_val, EF.val_div_val, List.getD_cons_zero,
    List.getD_cons_succ]

/-- On the strictly increasing series the 14-day average loss at row 13 is
zero. -/
lemma avgLoss_c15_eval : avgLoss c15 13 = .val 0 := by
  norm_num [avgLoss, rollMean, rollSum, loss, delta, closeAt, c15,
    EF.ltZeroB, EF.neg, EF.val_add_val, EF.val_div_val, List.getD_cons_zero,
    List.getD_cons_succ]

/-- On the strictly increasing series the RSI at row 13 is exactly 100. -/
lemma rsi_c15_eval : rsi c15 13 = .val 100 := by
  unfold rsi rs
  rw [avgGain_c15_eval, avgLoss_c15_eval,
    EF.val_div_zero_pos (13/14) (by norm_num), EF.val_add_pinf,
    EF.val_div_pinf, EF.val_sub_val]
  norm_num

/-- Claim C9, witness: the RSI of the strictly increasing series is the
finite value 100 at row 13, and the theorem places it in `[0, 100]`. -/
theorem claim_C9_witness :
    rsi c15 13 = .val 100 ∧ (0 ≤ (100 : ℚ) ∧ (100 : ℚ) ≤ 100) :=
  ⟨rsi_c15_eval, claim_C9 c15 13 100 rsi_c15_eval⟩

/-! ## Claim C5 -/

/-- Claim C5, counterexample.  The claim states that wherever the trailing
14-day average loss is zero, RSI is missing.  On the strictly increasing
series the average loss at row 13 is zero and the average gain is 13/14, yet
the computed RSI is the finite value 100 — not missing (`gain/0 = +inf`
collapses `100 − 100/(1 + inf)` to exactly 100). -/
theorem claim_C5_counterexample :
    avgLoss c15 13 = .val 0 ∧ avgGain c15 13 = .val (13/14) ∧
    rsi c15 13 = .val 100 :=
  ⟨avgLoss_c15_eval, avgGain_c15_eval, rsi_c15_eval⟩

/-- Claim C5, amended: for every row where the trailing 14-day average loss
is zero (and defined), the RSI is the finite value 100 when the average gain
is positive, and a missing value (`nan`) only when the average gain is also
zero; it is never `±∞`. -/
theorem claim_C5_amended (closes : List ℚ) (i : ℕ) (g : ℚ)
    (hg : avgGain closes i = .val g) (hl : avgLoss closes i = .val 0) :
    rsi closes i = if g = 0 then EF.nan else EF.val 100 := by
  have hg0 : 0 ≤ g := by
    unfold avgGain at hg
    rcases rollMean_cases (gain closes) i (gain_nonnegVal closes) with h | ⟨g', hg', hg0'⟩
    · rw [h] at hg
      cases hg
    · rw [hg'] at hg
      have : g' = g := by injection hg
      rwa [← this]
  unfold rsi rs
  rw [hg, hl]
  rcases eq_or_lt_of_le hg0 with h0 | hpos
  · rw [← h0, EF.zero_div_zero, EF.add_nan, EF.div_nan, EF.sub_nan, if_pos rfl]
  · rw [EF.val_div_zero_pos g hpos, EF.val_add_pinf, EF.val_div_pinf,
      EF.val_sub_val, if_neg hpos.ne']
    norm_num

/-- Claim C5, witness: the amended statement instantiated at the strictly
increasing series, where the average gain 13/14 is nonzero and the RSI is
the finite value 100. -/
theorem claim_C5_witness :
    rsi c15 13 = if (13/14 : ℚ) = 0 then EF.nan else EF.val 100 :=
  claim_C5_amended c15 13 (13/14) avgGain_c15_eval avgLoss_c15_eval

/-! ## Claim C2 -/

/-- On a nonempty table the windower raises nothing. -/
lemma prepareSequencesE_ok (L : ℕ) (df : List (List ℚ)) (h : df ≠ []) :
    prepareSequencesE L df = .ok (prepareSequences L df) := by
  unfold prepareSequencesE
  rw [if_neg (by simpa [List.isEmpty_iff] using h)]

/-- With `N ≤ L` rows the windower produces no windows and no labels. -/
lemma prepareSequences_short (L : ℕ) (df : List (List ℚ))
    (h : df.length ≤ L) :
    (prepareSequences L df).2.1 = [] ∧ (prepareSequences L df).2.2 = [] := by
  have hz : (mmTransform (mmFitT df) df).length - L = 0 := by
    simp only [mmTransform, List.length_map]
    omega
  constructor <;>
    simp [prepareSequences, hz]

/-- The window list of `prepare_sequences` has `N − L` entries. -/
lemma prepareSequences_len (L : ℕ) (df : List (List ℚ)) :
    (prepareSequences L df).2.1.length = df.length - L := by
  simp [prepareSequences, mmTransform]

/-- Claim C2, counterexample.  The claim states that `prepare_sequences`
fails with an insufficient-data error whenever `N ≤ L`, and that `train`
raises a data-insufficiency error before any epoch when fewer than one
training window and one validation window exist.  On a concrete 2-row table
with `L = 2` the windower succeeds (returning zero windows); and on a 3-row
table with `L = 2` (one window, so zero training windows after the 80/20
split) `train` fails with the in-epoch `ZeroDivisionError`, not a
data-insufficiency error raised before the loop. -/
theorem claim_C2_counterexample :
    df2.length ≤ 2 ∧ (prepareSequencesE 2 df2).isOk = true ∧
    train stepC valLossC 0 2 32 50 (1/5) df3 = .error .firstEpochDivZero := by
  refine ⟨by decide, ?_, ?_⟩
  · rw [prepareSequencesE_ok 2 df2 (by decide)]
    rfl
  · have hlen : (prepareSequences 2 df3).2.1.length = 1 := by
      rw [prepareSequences_len]
      rfl
    simp only [train]
    rw [if_neg (by simp [df3]), if_neg (by simp [hlen])]
    rw [if_pos (by rw [hlen]; norm_num [ratFloorNat])]

/-- Claim C2, amended: `prepare_sequences` raises only on an empty table
(the scaler's empty-fit error); for `1 ≤ N ≤ L` it succeeds with zero
windows.  `train` raises its no-data error only for an empty table; with
zero windows it fails with an index error reading the feature dimension
(before the loop), and with at least one window but zero full training
batches it fails with a division by zero inside the first epoch — in neither
case a dedicated data-insufficiency error. -/
theorem claim_C2_amended :
    (∀ (L : ℕ) (df : List (List ℚ)), df ≠ [] →
      prepareSequencesE L df = .ok (prepareSequences L df)) ∧
    (∀ (L : ℕ) (df : List (List ℚ)), df.length ≤ L →
      (prepareSequences L df).2.1 = [] ∧ (prepareSequences L df).2.2 = []) ∧
    (∀ (W : Type) (step : W → W) (valLoss : W → ℚ) (init : W)
      (L batchSize epochs : ℕ) (valSplit : ℚ),
      train step valLoss init L batchSize epochs valSplit [] = .error .noData) ∧
    (∀ (W : Type) (step : W → W) (valLoss : W → ℚ) (init : W)
      (L batchSize epochs : ℕ) (valSplit : ℚ) (df : List (List ℚ)),
      df ≠ [] → (prepareSequences L df).2.1 = [] →
      train step valLoss init L batchSize epochs valSplit df
        = .error .shapeIndexError) ∧
    (∀ (W : Type) (step : W → W) (valLoss : W → ℚ) (init : W)
      (L batchSize epochs : ℕ) (valSplit : ℚ) (df : List (List ℚ)),
      df ≠ [] →
      min (ratFloorNat (((prepareSequences L df).2.1.length : ℚ) * (1 - valSplit)))
          (prepareSequences L df).2.1.length / batchSize = 0 →
      (prepareSequences L df).2.1 ≠ [] →
      train step valLoss init L batchSize epochs valSplit df
        = .error .firstEpochDivZero) := by
  refine ⟨prepareSequencesE_ok, prepareSequences_short, ?_, ?_, ?_⟩
  · intro W step valLoss init L batchSize epochs valSplit
    rfl
  · intro W step valLoss init L batchSize epochs valSplit df h1 h2
    simp only [train]
    rw [if_neg (by simpa [List.isEmpty_iff] using h1),
      if_pos (by simp [h2])]
  · intro W step valLoss init L batchSize epochs valSplit df h1 h2 h3
    simp only [train]
    rw [if_neg (by simpa [List.isEmpty_iff] using h1),
      if_neg (by simpa [List.length_eq_zero] using h3), if_pos h2]

/-- Claim C2 (amended), witness: the amended statements instantiated on the
concrete 2-row and 3-row tables with `L = 2`. -/
theorem claim_C2_amended_witness :
    prepareSequencesE 2 df2 = .ok (prepareSequences 2 df2) ∧
    (prepareSequences 2 df2).2.1 = [] ∧
    train stepC valLossC 0 2 32 50 (1/5) df2 = .error .shapeIndexError ∧
    train stepC valLossC 0 2 32 50 (1/5) [] = .error .noData :=
  ⟨claim_C2_amended.1 2 df2 (by decide),
    (claim_C2_amended.2.1 2 df2 (by decide)).1,
    claim_C2_amended.2.2.2.1 ℕ stepC valLossC 0 2 32 50 (1/5) df2 (by decide)
      ((claim_C2_amended.2.1 2 df2 (by decide)).1),
    claim_C2_amended.2.2.1 ℕ stepC valLossC 0 2 32 50 (1/5)⟩

/-! ## Claim C1 -/

/-- Claim C1: for a table of `N ≥ L + 1` rows, `prepare_sequences` produces
exactly `N − L` windows and `N − L` labels; window `j` consists of the scaled
feature rows `[j, j + L)` in original order, and label `j` is the scaled
close price of row `j + L`, the row immediately following the window. -/
theorem claim_C1 (L : ℕ) (df : List (List ℚ)) (hL : L + 1 ≤ df.length) :
    (prepareSequences L df).2.1.length = df.length - L ∧
    (prepareSequences L df).2.2.length = df.length - L ∧
    (∀ j k, j < df.length - L → k < L →
      ((prepareSequences L df).2.1.getD j []).getD k []
        = (mmTransform (mmFitT df) df).getD (j + k) []) ∧
    (∀ j, j < df.length - L →
      (prepareSequences L df).2.2.getD j 0
        = mmScale (mmFit1 (column df closeIdx))
            ((column df closeIdx).getD (j + L) 0)) := by
  have hfs : (mmTransform (mmFitT df) df).length = df.length := by
    simp [mmTransform]
  refine ⟨?_, ?_, ?_, ?_⟩
  · simp [prepareSequences, mmTransform]
  · simp [prepareSequences, mmTransform]
  · intro j k hj hk
    simp only [prepareSequences, List.getD_eq_getElem?_getD]
    rw [List.getElem?_map, List.getElem?_range' L 1 (by rw [hfs]; omega)]
    simp only [one_mul, Option.map_some', Option.getD_some,
      Nat.add_sub_cancel_left]
    rw [List.getElem?_take, if_pos hk, List.getElem?_drop]
  · intro j hj
    rw [Nat.add_comm j L]
    simp only [prepareSequences, List.getD_eq_getElem?_getD]
    rw [List.getElem?_map, List.getElem?_range' L 1 (by rw [hfs]; omega)]
    simp only [one_mul, Option.map_some', Option.getD_some]
    have hin : L + j < (column df closeIdx).length := by
      simp only [column, List.length_map]
      omega
    rw [List.getElem?_map, List.getElem?_eq_getElem hin]
    simp only [Option.map_some', Option.getD_some]

/-- Claim C1, witness: with `L = 2` on the concrete 3-row table there is
exactly one window, and its label is the scaled close price of row 2 (the
row after the window), which evaluates to 1. -/
theorem claim_C1_witness :
    (prepareSequences 2 df3).2.1.length = 1 ∧
    (prepareSequences 2 df3).2.2.length = 1 ∧
    (prepareSequences 2 df3).2.2.getD 0 0 = 1 := by
  have h := claim_C1 2 df3 (by decide)
  refine ⟨h.1, h.2.1, ?_⟩
  rw [h.2.2.2 0 (by decide)]
  norm_num [mmScale, mmFit1, mmRange, listMin, listMax, column, closeIdx, df3,
    List.getD_cons_zero, List.getD_cons_succ]

/-! ## Claim C10 -/

/-- The sample variance of at least two observations is nonnegative. -/
lemma sampleVar_nonneg (xs : List ℚ) (h2 : 2 ≤ xs.length) :
    0 ≤ sampleVar xs := by
  unfold sampleVar
  apply div_nonneg
  · apply List.sum_nonneg
    intro x hx
    obtain ⟨a, _, rfl⟩ := List.mem_map.mp hx
    positivity
  · have hc : (2 : ℚ) ≤ (xs.length : ℚ) := by exact_mod_cast h2
    linarith

/-- What `predict` returns on the single-row table: the band is `NaN`. -/
lemma predict_dfW_eval : (predict (fun q => q) pW dfW).1 = .ok rW := by
  norm_num [predict, pW, dfW, rW, mW, mmTransform, mmTransformRow, mmScale,
    mmUnscale, mmRange, column, closeIdx, closeStd, EF.mul_nan, EF.sub_nan,
    EF.add_nan, List.getLastD, List.getD_cons_zero, List.getD_cons_succ]

/-- What `predict` returns on the two-row table with `sqrtA = id`. -/
lemma predict_df2r_eval : (predict (fun q => q) pW df2r).1 = .ok rW2 := by
  norm_num [predict, pW, df2r, rW2, mW, mmTransform, mmTransformRow, mmScale,
    mmUnscale, mmRange, column, closeIdx, closeStd, sampleVar, listMean,
    EF.val_mul_val, EF.val_sub_val, EF.val_add_val, List.getLastD,
    List.getD_cons_zero, List.getD_cons_succ, List.sum_cons, List.sum_nil]

/-- Claim C10, counterexample.  The claim states that every successful
`predict` call returns a band with
`confidence_lower ≤ predicted_price ≤ confidence_upper`.  On a single-row
fetched table (sequence length 1) the call succeeds, but the sample standard
deviation of one close price is `NaN`, both bounds are `NaN`, and the IEEE
comparison `confidence_lower ≤ predicted_price` is false. -/
theorem claim_C10_counterexample :
    (predict (fun q => q) pW dfW).1 = .ok rW ∧
    rW.confidenceLower.leB (.val rW.predictedPrice) = false ∧
    rW.confidenceUpper = .nan :=
  ⟨predict_dfW_eval, rfl, rfl⟩

/-- Claim C10, amended: every successful `predict` call on a fetched window
of at least two rows (so the close-price standard deviation is defined)
returns the symmetric band `predicted_price ∓ 1.96 · std`, and consequently
`confidence_lower ≤ predicted_price ≤ confidence_upper`; with fewer than two
rows the standard deviation and both bounds are `NaN` and the inequalities
fail. -/
theorem claim_C10_amended (sqrtA : ℚ → ℚ) (p : Predictor) (df : List (List ℚ))
    (r : PredictResult) (h : (predict sqrtA p df).1 = .ok r)
    (h2 : 2 ≤ df.length) (hs : ∀ q, 0 ≤ q → 0 ≤ sqrtA q) :
    r.confidenceLower
      = .val (r.predictedPrice - 196/100 * sqrtA (sampleVar (column df closeIdx))) ∧
    r.confidenceUpper
      = .val (r.predictedPrice + 196/100 * sqrtA (sampleVar (column df closeIdx))) ∧
    r.confidenceLower.leB (.val r.predictedPrice) = true ∧
    (EF.val r.predictedPrice).leB r.confidenceUpper = true := by
  have hvar : 0 ≤ sqrtA (sampleVar (column df closeIdx)) := by
    apply hs
    apply sampleVar_nonneg
    simpa [column] using h2
  have hband : 0 ≤ 196/100 * sqrtA (sampleVar (column df closeIdx)) :=
    mul_nonneg (by norm_num) hvar
  rcases hm : p.model with _ | m
  · simp [predict, hm] at h
  · by_cases hlen : df.length < p.sequenceLength
    · simp [predict, hm, hlen] at h
    · have hstd : closeStd sqrtA (column df closeIdx)
          = .val (sqrtA (sampleVar (column df closeIdx))) := by
        unfold closeStd
        rw [if_neg (by simp only [column, List.length_map]; omega)]
      simp only [predict, hm, hlen, if_false, Except.ok.injEq] at h
      subst h
      refine ⟨?_, ?_, ?_, ?_⟩
      · simp only [hstd, EF.val_mul_val, EF.val_sub_val]
      · simp only [hstd, EF.val_mul_val, EF.val_add_val]
      · simp only [hstd, EF.val_mul_val, EF.val_sub_val, EF.leB,
          decide_eq_true_eq]
        linarith
      · simp only [hstd, EF.val_mul_val, EF.val_add_val, EF.leB,
          decide_eq_true_eq]
        linarith

/-- Claim C10 (amended), witness: the amended statement instantiated on the
two-row table, where the inequality holds. -/
theorem claim_C10_witness :
    (predict (fun q => q) pW df2r).1 = .ok rW2 ∧
    rW2.confidenceLower.leB (.val rW2.predictedPrice) = true := by
  refine ⟨predict_df2r_eval, ?_⟩
  exact (claim_C10_amended (fun q => q) pW df2r rW2 predict_df2r_eval
    (by decide) (fun q hq => hq)).2.2.1

end StockPred
